import Mathlib

/-!
Verification of the `dk-open/ring` lock-free ring buffers.

This file gives a shallow embedding of the core of the repository:
the MPMC queue (`queue.go`, the current two-step revision), the broadcast
disruptor ring (`disruptor.go`), the reader worker (`runReader`) and the
`pad.MinBarrier` reduction, and proves the frozen specification claims
about them.

Modelling conventions:
* Go `uint64` arithmetic is modelled by `Nat` with explicit reduction
  modulo `U64 = 2 ^ 64`; Go's wrapping subtraction `a - b` is `u64sub`.
* Atomic loads/stores become plain state reads/writes; a compare-and-swap
  performed right after loading the compared value always succeeds in a
  sequential execution, so interference from other threads is modelled by
  an explicit `casOk : Bool` oracle (`false` = the CAS lost the race).
* Go slices become `List`; `make([]T, n)` is `List.replicate n default`
  (the `Inhabited` default plays Go's zero value) and indexing reads use
  `List.getD` with that default.
* Go panics (index out of range on an empty `MinBarrier`) are modelled by
  `Option`: `none` is the fatal crash path.
* A Go function that returns `(T, bool)` with the zero value on failure is
  modelled as returning an `Option T` (`none` = zero value plus `false`).
-/

/-- U64 is the modulus of Go's 64-bit unsigned arithmetic. -/
def U64 : Nat := 2 ^ 64

/-- u64sub models Go's wrapping subtraction `a - b` on `uint64` values
(both operands assumed already reduced below `U64`). -/
def u64sub (a b : Nat) : Nat := (a + U64 - b % U64) % U64

/-- RingError is the error vocabulary of the constructors; the source has
the single value `ErrCapacity` (InvalidCapacity). -/
inductive RingError where
  | ErrCapacity
deriving DecidableEq, Repr

/-- queue is the state of `type queue[T any] struct` from `queue.go`
(current revision, lines 20-26): the slot array, the capacity with its
derived mask `capacity-1` and fullness bound `capacity*2-1`, and the two
padded atomic cursors `head` and `tail` (padding has no functional
content and is dropped). -/
structure queue (T : Type) where
  buffer : List T
  cap : Nat
  capMask : Nat
  capX2 : Nat
  head : Nat
  tail : Nat
deriving DecidableEq, Repr

/-- Queue is the constructor `func Queue[T any](capacity uint64)` from
`queue.go` lines 28-38: it rejects a zero capacity or one with
`capacity & (capacity-1) != 0`, otherwise allocates the zeroed buffer and
derived fields. -/
def Queue (T : Type) [Inhabited T] (capacity : Nat) : Except RingError (queue T) :=
  if capacity = 0 ∨ capacity &&& (capacity - 1) ≠ 0 then
    Except.error RingError.ErrCapacity
  else
    Except.ok
      { buffer := List.replicate capacity default
        cap := capacity
        capMask := capacity - 1
        capX2 := capacity * 2 - 1
        head := 0
        tail := 0 }

/-- queue.Enqueue is the non-blocking two-step enqueue of `queue.go`
lines 40-54: load `head`, fail when `head - tail >= capX2`, CAS
`head -> head+1` (reservation), write `buffer[head>>1 & capMask]`, then
store `head+2` (publication).  `casOk` tells whether the CAS wins. -/
def queue.Enqueue {T : Type} [Inhabited T] (q : queue T) (item : T) (casOk : Bool) :
    queue T × Bool :=
  let head := q.head
  if q.capX2 ≤ u64sub head q.tail then (q, false)
  else
    let nextHead := (head + 1) % U64
    if casOk then
      let q1 : queue T := { q with head := nextHead }
      let q2 : queue T := { q1 with buffer := q1.buffer.set ((head >>> 1) &&& q.capMask) item }
      let q3 : queue T := { q2 with head := (nextHead + 1) % U64 }
      (q3, true)
    else (q, false)

/-- EnqEvent is one shared-memory event of the enqueue fast path: the
reservation CAS on `head`, the slot write, or the publication store. -/
inductive EnqEvent (T : Type) where
  | cas (old new : Nat)
  | write (idx : Nat) (v : T)
  | store (new : Nat)
deriving DecidableEq, Repr

/-- queue.EnqueueTrace lists, in program order, the shared-memory events
performed by `queue.Enqueue` (queue.go lines 40-54) on the same input:
empty when the full check or the CAS aborts the attempt. -/
def queue.EnqueueTrace {T : Type} (q : queue T) (item : T) (casOk : Bool) :
    List (EnqEvent T) :=
  let head := q.head
  if q.capX2 ≤ u64sub head q.tail then []
  else
    let nextHead := (head + 1) % U64
    if casOk then
      [EnqEvent.cas head nextHead,
       EnqEvent.write ((head >>> 1) &&& q.capMask) item,
       EnqEvent.store ((nextHead + 1) % U64)]
    else []

/-- applyEvent plays one enqueue event against a queue state. -/
def applyEvent {T : Type} (q : queue T) (e : EnqEvent T) : queue T :=
  match e with
  | EnqEvent.cas _ n => { q with head := n }
  | EnqEvent.write idx v => { q with buffer := q.buffer.set idx v }
  | EnqEvent.store n => { q with head := n }

/-- applyTrace plays a list of enqueue events left to right. -/
def applyTrace {T : Type} (q : queue T) : List (EnqEvent T) → queue T
  | [] => q
  | e :: es => applyTrace (applyEvent q e) es

/-- DeqResult is the outcome of one iteration of the `for` loop in
`queue.Dequeue` (queue.go lines 82-103): `empty` is the `return` with the
zero value and `false` (taken when `tail == head`), `retry` is a
`runtime.Gosched()` followed by another iteration, and `got v` is the
successful `return res, true`. -/
inductive DeqResult (T : Type) where
  | empty
  | retry
  | got (v : T)
deriving DecidableEq, Repr

/-- queue.DequeueIter is one iteration of the loop body of
`queue.Dequeue` (queue.go lines 82-103): return zero/false when
`tail == head`; yield and retry when `tail` is odd, the gap is below 2,
or the CAS on `tail` loses; otherwise CAS `tail -> tail+1`, read the
slot, store `tail+2` and return the value. -/
def queue.DequeueIter {T : Type} [Inhabited T] (q : queue T) (casOk : Bool) :
    queue T × DeqResult T :=
  let tail := q.tail
  let head := q.head
  if tail = head then (q, DeqResult.empty)
  else if tail &&& 1 = 1 ∨ u64sub head tail < 2 then (q, DeqResult.retry)
  else
    let nextTail := (tail + 1) % U64
    if casOk then
      let q1 : queue T := { q with tail := nextTail }
      let res := q1.buffer.getD ((tail >>> 1) &&& q.capMask) default
      let q2 : queue T := { q1 with tail := (nextTail + 1) % U64 }
      (q2, DeqResult.got res)
    else (q, DeqResult.retry)

/-- queue.DequeueFuel runs the full `queue.Dequeue` loop for at most
`fuel` iterations (each with a winning CAS): `some (some v)` is a
successful dequeue, `some none` the empty return, `none` means the loop
was still retrying when the fuel ran out. -/
def queue.DequeueFuel {T : Type} [Inhabited T] (q : queue T) (casOk : Bool) :
    Nat → queue T × Option (Option T)
  | 0 => (q, none)
  | fuel + 1 =>
    match q.DequeueIter casOk with
    | (q1, DeqResult.empty) => (q1, some none)
    | (q1, DeqResult.got v) => (q1, some (some v))
    | (q1, DeqResult.retry) => queue.DequeueFuel q1 casOk fuel

/-- queue.EnqueueAll enqueues a list of values in order, each with a
winning CAS (the sequential single-producer run), collecting the
returned booleans. -/
def queue.EnqueueAll {T : Type} [Inhabited T] (q : queue T) : List T → queue T × List Bool
  | [] => (q, [])
  | v :: vs =>
    let r1 := q.Enqueue v true
    let r2 := queue.EnqueueAll r1.1 vs
    (r2.1, r1.2 :: r2.2)

/-- queue.DrainN runs `n` single iterations of the dequeue loop in
sequence (the sequential single-consumer run), collecting each outcome. -/
def queue.DrainN {T : Type} [Inhabited T] (q : queue T) : Nat → queue T × List (DeqResult T)
  | 0 => (q, [])
  | n + 1 =>
    let r1 := q.DequeueIter true
    let r2 := queue.DrainN r1.1 n
    (r2.1, r1.2 :: r2.2)

/-- MinBarrier.Load is `func (m MinBarrier) Load() uint64` from
`pad/barrier.go` lines 9-17; the members are snapshotted as the list of
their currently loaded values.  The source starts from `m[0].Load()`, so
an empty barrier panics with an index-out-of-range: that fatal path is
`none`. -/
def MinBarrier.Load (m : List Nat) : Option Nat :=
  match m with
  | [] => none
  | x :: xs => some (xs.foldl (fun minimum seq => if seq < minimum then seq else minimum) x)

/-- disruptor is the state of `type disruptor[T any] struct` from
`disruptor.go` lines 22-30: the slot array, capacity with derived mask
and fullness bound, the writer cursor, and the reader barrier snapshotted
as the list of the per-reader cursor values. -/
structure disruptor (T : Type) where
  buffer : List T
  cap : Nat
  capMask : Nat
  capX2 : Nat
  writerCursor : Nat
  readerBarrier : List Nat
deriving DecidableEq, Repr

/-- Disruptor is the constructor `func Disruptor[T any](ctx, capacity,
readers...)` from `disruptor.go` lines 31-48: same capacity validation as
the queue, zeroed buffer, and one reader cursor (started at 0 by
`runReader`) per supplied callback; only the number of callbacks matters
for the ring state, so the model takes `nReaders`. -/
def Disruptor (T : Type) [Inhabited T] (capacity : Nat) (nReaders : Nat) :
    Except RingError (disruptor T) :=
  if capacity = 0 ∨ capacity &&& (capacity - 1) ≠ 0 then
    Except.error RingError.ErrCapacity
  else
    Except.ok
      { buffer := List.replicate capacity default
        cap := capacity
        capMask := capacity - 1
        capX2 := capacity * 2 - 1
        writerCursor := 0
        readerBarrier := List.replicate nReaders 0 }

/-- disruptor.Enqueue is the non-blocking enqueue of `disruptor.go`
lines 50-63: identical to the queue enqueue except that the tail is
`d.readerBarrier.Load()`.  The result is `none` when that load panics on
an empty barrier. -/
def disruptor.Enqueue {T : Type} [Inhabited T] (d : disruptor T) (item : T) (casOk : Bool) :
    Option (disruptor T × Bool) :=
  let head := d.writerCursor
  match MinBarrier.Load d.readerBarrier with
  | none => none
  | some t =>
    if d.capX2 ≤ u64sub head t then some (d, false)
    else
      let nextHead := (head + 1) % U64
      if casOk then
        let d1 : disruptor T := { d with writerCursor := nextHead }
        let d2 : disruptor T :=
          { d1 with buffer := d1.buffer.set ((head >>> 1) &&& d.capMask) item }
        let d3 : disruptor T := { d2 with writerCursor := (nextHead + 1) % U64 }
        some (d3, true)
      else some (d, false)

/-- BackoffStep is the action taken by one call of `func backoff(attempt
int)` from `disruptor.go` lines 90-110: busy spin, `runtime.Gosched()`,
a bounded `time.Sleep`, or the `ExhaustedBackoff` error return. -/
inductive BackoffStep where
  | spin
  | cooperate
  | sleep (micros : Nat)
  | exhausted
deriving DecidableEq, Repr

/-- backoff is `func backoff(attempt int)` from `disruptor.go` lines
90-110: spin below 5 attempts, yield below 20, sleep
`1µs << (attempt-20)` capped at 5ms below 10000, and fail from attempt
10000 on. -/
def backoff (attempt : Nat) : BackoffStep :=
  if attempt < 5 then BackoffStep.spin
  else if attempt < 20 then BackoffStep.cooperate
  else if attempt < 10000 then BackoffStep.sleep (min (1 <<< (attempt - 20)) 5000)
  else BackoffStep.exhausted

/-- disruptor.MustEnqueueFullIter is one iteration of the `for` loop of
`disruptor.MustEnqueue` (disruptor.go lines 65-88) on a ring whose full
check `head - readerBarrier >= capX2` holds at every load: the body runs
`if err := backoff(attempt); err != nil { return err }; continue`, which
leaves `attempt` unchanged (the source increments `attempt` only on the
CAS-failure path, never on this full path).  `none` is the error
return, `some a` continues the loop with counter `a`. -/
def disruptor.MustEnqueueFullIter (attempt : Nat) : Option Nat :=
  if backoff attempt = BackoffStep.exhausted then none else some attempt

/-- disruptor.MustEnqueueFullRun iterates `disruptor.MustEnqueueFullIter`
up to `fuel` times starting from the given attempt counter; the result
tells whether the loop returned the ExhaustedBackoff error within that
many iterations. -/
def disruptor.MustEnqueueFullRun (attempt : Nat) : Nat → Bool
  | 0 => false
  | fuel + 1 =>
    match disruptor.MustEnqueueFullIter attempt with
    | none => true
    | some a => disruptor.MustEnqueueFullRun a fuel

/-- readLoop is the inner loop of the reader worker in `runReader`
(`src/unnamed/part_001` lines 29-33): `for tail < head { consume
sequence tail; tail += 2 }`.  It returns the consumed sequence numbers
(each one read from slot `(s >> 1) & capMask`) and the tail value that
the worker then stores in its cursor. -/
def readLoop (tail head : Nat) : List Nat × Nat :=
  if h : tail < head then
    let rest := readLoop (tail + 2) head
    (tail :: rest.1, rest.2)
  else ([], tail)
termination_by head - tail
decreasing_by omega

/-- runReaderIter is one iteration of the reader worker loop of
`runReader` (`src/unnamed/part_001` lines 16-46) with own cursor `tail`
and observed writer cursor `head`: when `tail + 1 < head` it runs the
inner consume loop and stores the new cursor (`some`), otherwise it
calls `readerYield` and retries (`none`). -/
def runReaderIter (tail head : Nat) : Option (List Nat × Nat) :=
  if tail + 1 < head then some (readLoop tail head) else none

/-! Helper lemmas about the arithmetic of the embedding. -/

theorem U64_pos : 0 < U64 := by norm_num [U64]

theorem u64sub_eq_sub (a b : Nat) (hb : b ≤ a) (ha : a < U64) : u64sub a b = a - b := by
  have hblt : b < U64 := lt_of_le_of_lt hb ha
  unfold u64sub
  rw [Nat.mod_eq_of_lt hblt]
  have h1 : a + U64 - b = (a - b) + U64 := by omega
  rw [h1, Nat.add_mod_right]
  exact Nat.mod_eq_of_lt (by omega)

theorem u64mod_eq (a : Nat) (ha : a < U64) : a % U64 = a := Nat.mod_eq_of_lt ha

theorem shiftRight_one_double (i : Nat) : (2 * i) >>> 1 = i := by
  rw [Nat.shiftRight_one]
  omega

theorem mask_pow_two (i k : Nat) (h : i < 2 ^ k) : i &&& (2 ^ k - 1) = i := by
  rw [Nat.and_pow_two_sub_one_eq_mod]
  exact Nat.mod_eq_of_lt h

theorem even_and_one (i : Nat) : (2 * i) &&& 1 = 0 := by
  rw [Nat.and_one_is_mod]
  omega

theorem getD_set_eq {T : Type} (l : List T) (n : Nat) (a d : T) (h : n < l.length) :
    (l.set n a).getD n d = a := by
  simp [List.getD, List.getElem?_set_self h]

theorem getD_set_ne {T : Type} (l : List T) (n i : Nat) (a d : T) (h : n ≠ i) :
    (l.set n a).getD i d = l.getD i d := by
  simp [List.getD, List.getElem?_set_ne h]

theorem pow2_of_land_pred (c : Nat) (hc : 0 < c) (h : c &&& (c - 1) = 0) :
    ∃ k, c = 2 ^ k := by
  induction c using Nat.strong_induction_on with
  | _ c ih =>
    match c, hc with
    | 1, _ => exact ⟨0, rfl⟩
    | (n + 2), _ =>
      rcases Nat.even_or_odd (n + 2) with he | ho
      · obtain ⟨m, hm⟩ := he
        have hmpos : 0 < m := by omega
        have h1 : n + 2 = Nat.bit false m := by simp [Nat.bit]; omega
        have h2 : n + 2 - 1 = Nat.bit true (m - 1) := by simp [Nat.bit]; omega
        rw [h2, h1, Nat.land_bit] at h
        simp [Nat.bit] at h
        have h3 : m &&& (m - 1) = 0 := by omega
        obtain ⟨k, hk⟩ := ih m (by omega) hmpos h3
        exact ⟨k + 1, by rw [pow_succ]; omega⟩
      · obtain ⟨m, hm⟩ := ho
        have hmpos : 0 < m := by omega
        have h1 : n + 2 = Nat.bit true m := by simp [Nat.bit]; omega
        have h2 : n + 2 - 1 = Nat.bit false m := by simp [Nat.bit]; omega
        rw [h2, h1, Nat.land_bit] at h
        simp [Nat.bit] at h
        omega

theorem land_pred_of_pow2 (k : Nat) : 2 ^ k &&& (2 ^ k - 1) = 0 := by
  rw [Nat.and_pow_two_sub_one_eq_mod]
  exact Nat.mod_self _

theorem map_getD_range {T : Type} (l : List T) (d : T) :
    (List.range l.length).map (fun t => l.getD t d) = l := by
  induction l with
  | nil => rfl
  | cons x xs ih =>
    rw [List.length_cons, List.range_succ_eq_map, List.map_cons, List.map_map]
    have h1 : ((fun t => List.getD (x :: xs) t d) ∘ Nat.succ) = fun t => xs.getD t d := by
      funext t
      simp [List.getD_cons_succ]
    rw [h1, ih]
    simp [List.getD_cons_zero]

theorem foldl_min_spec (xs : List Nat) (a : Nat) :
    (xs.foldl (fun minimum seq => if seq < minimum then seq else minimum) a = a ∨
      xs.foldl (fun minimum seq => if seq < minimum then seq else minimum) a ∈ xs) ∧
    xs.foldl (fun minimum seq => if seq < minimum then seq else minimum) a ≤ a ∧
    ∀ y ∈ xs, xs.foldl (fun minimum seq => if seq < minimum then seq else minimum) a ≤ y := by
  induction xs generalizing a with
  | nil => simp
  | cons x xs ih =>
    rw [List.foldl_cons]
    by_cases hx : x < a
    · simp only [if_pos hx]
      rcases ih x with ⟨hmem, hle, hall⟩
      refine ⟨?_, ?_, ?_⟩
      · rcases hmem with h | h
        · exact Or.inr (by simp [h])
        · exact Or.inr (List.mem_cons_of_mem _ h)
      · omega
      · intro y hy
        rcases List.mem_cons.mp hy with rfl | hy
        · exact hle
        · exact hall y hy
    · simp only [if_neg hx]
      rcases ih a with ⟨hmem, hle, hall⟩
      refine ⟨?_, hle, ?_⟩
      · rcases hmem with h | h
        · exact Or.inl h
        · exact Or.inr (List.mem_cons_of_mem _ h)
      · intro y hy
        rcases List.mem_cons.mp hy with rfl | hy
        · omega
        · exact hall y hy

theorem capacity_check_iff (c : Nat) :
    (¬ (c = 0 ∨ c &&& (c - 1) ≠ 0)) ↔ ∃ k, c = 2 ^ k := by
  constructor
  · intro h
    push_neg at h
    exact pow2_of_land_pred c (Nat.pos_of_ne_zero h.1) h.2
  · rintro ⟨k, rfl⟩
    push_neg
    exact ⟨(Nat.pos_pow_of_pos k (by norm_num)).ne', land_pred_of_pow2 k⟩

/-- C6: for every non-empty collection of barriers holding u64 values,
MinBarrier.Load returns the minimum of the members' loaded values; Load
on an empty MinBarrier fails with the fatal empty-barrier condition
(modelled as `none`, the panic of `m[0].Load()` on an empty slice). -/
theorem C6_MinBarrier_Load_minimum (l : List Nat) (hl : l ≠ []) :
    (∃ m, MinBarrier.Load l = some m ∧ m ∈ l ∧ ∀ y ∈ l, m ≤ y) ∧
    MinBarrier.Load ([] : List Nat) = none := by
  constructor
  · match l, hl with
    | x :: xs, _ =>
      refine ⟨xs.foldl (fun minimum seq => if seq < minimum then seq else minimum) x,
        rfl, ?_, ?_⟩
      · rcases (foldl_min_spec xs x).1 with h | h
        · simp [h]
        · exact List.mem_cons_of_mem _ h
      · intro y hy
        rcases List.mem_cons.mp hy with rfl | hy
        · exact (foldl_min_spec xs y).2.1
        · exact (foldl_min_spec xs x).2.2 y hy
  · rfl

/-- C6 witness: the theorem applied to the member values of the source
test `TestMinBarrier_MultipleBarriers`. -/
theorem C6_witness :
    (∃ m, MinBarrier.Load [42, 17, 19] = some m ∧ m ∈ [42, 17, 19] ∧
      ∀ y ∈ [42, 17, 19], m ≤ y) ∧
    MinBarrier.Load ([] : List Nat) = none :=
  C6_MinBarrier_Load_minimum [42, 17, 19] (by decide)

/-- C7: for every requested u64 capacity `c`, the queue and broadcast
constructors succeed if and only if `c` is a positive power of two, and
on violation they fail with ErrCapacity (InvalidCapacity); the error
type has no other value, so no other failure mode exists. -/
theorem C7_capacity_validation (T : Type) [Inhabited T] (c n : Nat) (hc : c < U64) :
    ((∃ q, Queue T c = Except.ok q) ↔ ∃ k, c = 2 ^ k) ∧
    ((∃ d, Disruptor T c n = Except.ok d) ↔ ∃ k, c = 2 ^ k) ∧
    ((¬ ∃ k, c = 2 ^ k) → Queue T c = Except.error RingError.ErrCapacity ∧
      Disruptor T c n = Except.error RingError.ErrCapacity) := by
  by_cases hpow : ∃ k, c = 2 ^ k
  · have hcond := (capacity_check_iff c).mpr hpow
    refine ⟨?_, ?_, fun h => absurd hpow h⟩
    · simp only [Queue, if_neg hcond]
      exact ⟨fun _ => hpow, fun _ => ⟨_, rfl⟩⟩
    · simp only [Disruptor, if_neg hcond]
      exact ⟨fun _ => hpow, fun _ => ⟨_, rfl⟩⟩
  · have hcond : (c = 0 ∨ c &&& (c - 1) ≠ 0) := by
      by_contra h
      exact hpow ((capacity_check_iff c).mp h)
    refine ⟨?_, ?_, fun _ => ?_⟩
    · simp only [Queue, if_pos hcond]
      constructor
      · rintro ⟨q, hq⟩
        simp at hq
      · intro h
        exact absurd h hpow
    · simp only [Disruptor, if_pos hcond]
      constructor
      · rintro ⟨d, hd⟩
        simp at hd
      · intro h
        exact absurd h hpow
    · exact ⟨by simp [Queue, if_pos hcond], by simp [Disruptor, if_pos hcond]⟩

/-- C7 witness: capacity 1 is accepted by both constructors (1 = 2^0). -/
theorem C7_witness :
    ((∃ q, Queue Nat 1 = Except.ok q) ↔ ∃ k, (1 : Nat) = 2 ^ k) ∧
    ((∃ d, Disruptor Nat 1 0 = Except.ok d) ↔ ∃ k, (1 : Nat) = 2 ^ k) ∧
    ((¬ ∃ k, (1 : Nat) = 2 ^ k) → Queue Nat 1 = Except.error RingError.ErrCapacity ∧
      Disruptor Nat 1 0 = Except.error RingError.ErrCapacity) :=
  C7_capacity_validation Nat 1 0 (by norm_num [U64])


/-- qMidConsume is a concrete queue state (capacity 2) captured between
the two phases of a concurrent dequeue: `head = 4` (two items
published), `tail = 1` (a consumer has CASed `0 -> 1` and has not yet
stored 2).  Field order: buffer, cap, capMask, capX2, head, tail. -/
def qMidConsume : queue Nat := ⟨[0, 0], 2, 1, 3, 4, 1⟩

/-- dNoReaders is the ring produced by `Disruptor(ctx, 2)` with no
consumer callbacks: its reader barrier has no members.  Field order:
buffer, cap, capMask, capX2, writerCursor, readerBarrier. -/
def dNoReaders : disruptor Nat := ⟨[0, 0], 2, 1, 3, 0, []⟩

/-- C2 counterexample: in the state `qMidConsume` (a consumer
reservation in flight: odd tail), one iteration of the `Dequeue` loop
yields `retry` (a `runtime.Gosched()` plus another iteration), not the
claimed immediate `(zero, false)` return, and 100 iterations of the
whole loop still have not returned. -/
theorem C2_counterexample :
    (queue.DequeueIter qMidConsume true).2 = DeqResult.retry ∧
    (DeqResult.retry : DeqResult Nat) ≠ DeqResult.empty ∧
    (queue.DequeueFuel qMidConsume true 100).2 = none := by
  refine ⟨by decide, by decide, by decide⟩

/-- C2 amended: `queue.Dequeue` is a retry loop, not a non-blocking
call.  One iteration returns `(zero, false)` exactly when `tail == head`
(empty); when the queue is non-empty but the tail is odd, the gap is
below 2, or the reservation CAS is lost, the iteration yields to the
scheduler and retries with the state unchanged, instead of returning. -/
theorem C2_dequeue_iteration_classified (T : Type) [Inhabited T] (q : queue T) (casOk : Bool) :
    ((q.DequeueIter casOk).2 = DeqResult.empty ↔ q.tail = q.head) ∧
    ((q.DequeueIter casOk).2 = DeqResult.retry ↔
      q.tail ≠ q.head ∧ (q.tail &&& 1 = 1 ∨ u64sub q.head q.tail < 2 ∨ casOk = false)) ∧
    (((q.DequeueIter casOk).2 = DeqResult.empty ∨ (q.DequeueIter casOk).2 = DeqResult.retry) →
      (q.DequeueIter casOk).1 = q) := by
  unfold queue.DequeueIter
  by_cases h1 : q.tail = q.head
  · rw [if_pos h1]
    simp [h1]
  · rw [if_neg h1]
    by_cases h2 : q.tail &&& 1 = 1 ∨ u64sub q.head q.tail < 2
    · rw [if_pos h2]
      refine ⟨by simp [h1], ⟨fun _ => ⟨h1, ?_⟩, fun _ => rfl⟩, fun _ => rfl⟩
      rcases h2 with h | h
      · exact Or.inl h
      · exact Or.inr (Or.inl h)
    · rw [if_neg h2]
      have h2a : ¬ q.tail &&& 1 = 1 := fun h => h2 (Or.inl h)
      have h2b : ¬ u64sub q.head q.tail < 2 := fun h => h2 (Or.inr h)
      cases casOk with
      | true =>
        simp [h1, h2a, h2b]
        have hm : q.tail % 2 ≠ 1 := by
          rw [Nat.and_one_is_mod] at h2a
          exact h2a
        omega
      | false => simp [h1, h2a, h2b]

/-- C2 witness: the classification applied to the state `qMidConsume`. -/
theorem C2_witness :
    ((queue.DequeueIter qMidConsume true).2 = DeqResult.empty ↔
      qMidConsume.tail = qMidConsume.head) ∧
    ((queue.DequeueIter qMidConsume true).2 = DeqResult.retry ↔
      qMidConsume.tail ≠ qMidConsume.head ∧
        (qMidConsume.tail &&& 1 = 1 ∨ u64sub qMidConsume.head qMidConsume.tail < 2 ∨
          true = false)) ∧
    (((queue.DequeueIter qMidConsume true).2 = DeqResult.empty ∨
      (queue.DequeueIter qMidConsume true).2 = DeqResult.retry) →
      (queue.DequeueIter qMidConsume true).1 = qMidConsume) :=
  C2_dequeue_iteration_classified Nat qMidConsume true

/-- C3 (code bug): on a broadcast ring whose full check holds at every
load, the `for` loop of `disruptor.MustEnqueue` never increments the
attempt counter (the source increments it only after a failed CAS), so
starting from attempt 0 the loop never returns ExhaustedBackoff no
matter how many iterations run; the backoff ladder itself does fail from
attempt 10000 on, but that attempt count is never reached. -/
theorem C3_full_ring_never_exhausts (fuel : Nat) :
    disruptor.MustEnqueueFullRun 0 fuel = false ∧
    backoff 10000 = BackoffStep.exhausted := by
  refine ⟨?_, by decide⟩
  induction fuel with
  | zero => rfl
  | succ n ih => exact ih

/-- C3 witness: 20000 iterations (twice the ladder budget) on the
permanently full ring still produce no ExhaustedBackoff. -/
theorem C3_witness :
    disruptor.MustEnqueueFullRun 0 20000 = false ∧
    backoff 10000 = BackoffStep.exhausted :=
  C3_full_ring_never_exhausts 20000

/-- C4 (code bug): a reader worker whose own cursor is 0 and which
observes the odd writer cursor 3 (the writer has CASed 2 -> 3 and is
still writing the slot of sequence 2) passes the `tail+1 < head` guard
and consumes sequences 0 and 2, although the publication of sequence 2
(the writer store making the cursor even and greater than 2, i.e. at
least 4) has not completed; it then stores its cursor 4, overtaking the
writer cursor 3.  The claim says the worker must not read the in-flight
slot and must retry instead. -/
theorem C4_reader_consumes_unpublished :
    runReaderIter 0 3 = some ([0, 2], 4) ∧ 3 &&& 1 = 1 ∧ ¬ (2 + 2 ≤ 3) ∧ 3 < 4 := by
  have h4 : readLoop 4 3 = ([], 4) := by
    unfold readLoop
    norm_num
  have h2 : readLoop 2 3 = ([2], 4) := by
    unfold readLoop
    norm_num [h4]
  have h0 : readLoop 0 3 = ([0, 2], 4) := by
    unfold readLoop
    norm_num [h2]
  refine ⟨?_, by decide, by decide, by decide⟩
  rw [runReaderIter, if_pos (by norm_num), h0]

/-- C5 counterexample: the broadcast constructor at the valid capacity 2
with an empty consumer list succeeds and yields `dNoReaders`, but the
first non-blocking Enqueue on that ring (not even full: writerCursor 0)
hits the fatal empty-barrier panic (`none`) inside
`readerBarrier.Load()` instead of returning false. -/
theorem C5_counterexample :
    Disruptor Nat 2 0 = Except.ok dNoReaders ∧
    disruptor.Enqueue dNoReaders 7 true = none := by
  exact ⟨rfl, rfl⟩

/-- C5 amended: the broadcast constructor fails only on invalid capacity
and accepts an empty consumer list, but on the resulting ring every
Enqueue call fails with the fatal empty-barrier condition (the ring is
unusable), rather than returning false once full. -/
theorem C5_empty_readers (T : Type) [Inhabited T] (c : Nat) (v : T) (casOk : Bool)
    (hpow : ∃ k, c = 2 ^ k) :
    ∃ d : disruptor T, Disruptor T c 0 = Except.ok d ∧ d.readerBarrier = [] ∧
      d.Enqueue v casOk = none := by
  have hcond := (capacity_check_iff c).mpr hpow
  refine ⟨⟨List.replicate c default, c, c - 1, c * 2 - 1, 0, List.replicate 0 0⟩, ?_, rfl, rfl⟩
  simp only [Disruptor, if_neg hcond]

/-- C5 witness: the amended statement at capacity 2 with value 7. -/
theorem C5_witness :
    ∃ d : disruptor Nat, Disruptor Nat 2 0 = Except.ok d ∧ d.readerBarrier = [] ∧
      d.Enqueue 7 true = none :=
  C5_empty_readers Nat 2 7 true ⟨1, rfl⟩

theorem applyTrace_EnqueueTrace (T : Type) [Inhabited T] (q : queue T) (v : T) (casOk : Bool) :
    applyTrace q (q.EnqueueTrace v casOk) = (q.Enqueue v casOk).1 := by
  unfold queue.EnqueueTrace queue.Enqueue
  by_cases hfull : q.capX2 ≤ u64sub q.head q.tail
  · rw [if_pos hfull, if_pos hfull]
    rfl
  · rw [if_neg hfull, if_neg hfull]
    cases casOk with
    | true => simp [applyTrace, applyEvent]
    | false => rfl

/-- C1: a successful non-blocking Enqueue follows the two-step protocol:
its shared-memory events are exactly the CAS of `head` from `h` to `h+1`
(the reservation, odd when `h` is even), the write of the value into
`buffer[(h >> 1) & capMask]`, and the store of `head = h+2` (the
publication, even again); every CAS event in the trace advances `head`
by exactly 1, never by 2; and replaying the trace agrees with the
Enqueue state transformer, whose final head is `h+2`. -/
theorem C1_enqueue_two_step (T : Type) [Inhabited T] (q : queue T) (v : T)
    (hwrap : q.head + 2 < U64) (heven : q.head % 2 = 0)
    (hok : (q.Enqueue v true).2 = true) :
    q.EnqueueTrace v true =
      [EnqEvent.cas q.head (q.head + 1),
       EnqEvent.write ((q.head >>> 1) &&& q.capMask) v,
       EnqEvent.store (q.head + 2)] ∧
    (q.head + 1) % 2 = 1 ∧
    (q.head + 2) % 2 = 0 ∧
    (∀ o n, EnqEvent.cas o n ∈ q.EnqueueTrace v true → n = o + 1) ∧
    applyTrace q (q.EnqueueTrace v true) = (q.Enqueue v true).1 ∧
    (q.Enqueue v true).1.head = q.head + 2 := by
  have hfull : ¬ q.capX2 ≤ u64sub q.head q.tail := by
    intro h
    unfold queue.Enqueue at hok
    rw [if_pos h] at hok
    simp at hok
  have hm1 : (q.head + 1) % U64 = q.head + 1 := u64mod_eq _ (by omega)
  have hm2 : (q.head + 1 + 1) % U64 = q.head + 2 := by
    have h3 : q.head + 1 + 1 < U64 := by omega
    rw [u64mod_eq _ h3]
  have htr : q.EnqueueTrace v true =
      [EnqEvent.cas q.head (q.head + 1),
       EnqEvent.write ((q.head >>> 1) &&& q.capMask) v,
       EnqEvent.store (q.head + 2)] := by
    unfold queue.EnqueueTrace
    rw [if_neg hfull]
    simp [hm1, hm2]
  refine ⟨htr, by omega, by omega, ?_, applyTrace_EnqueueTrace T q v true, ?_⟩
  · intro o n hmem
    rw [htr] at hmem
    simp at hmem
    obtain ⟨ho, hn⟩ := hmem
    omega
  · unfold queue.Enqueue
    rw [if_neg hfull]
    simp [hm1, hm2]

/-- C1 witness: the theorem applied to a fresh queue of capacity 4 and
the value 9. -/
theorem C1_witness :
    queue.EnqueueTrace (⟨[0, 0, 0, 0], 4, 3, 7, 0, 0⟩ : queue Nat) 9 true =
      [EnqEvent.cas 0 (0 + 1), EnqEvent.write ((0 >>> 1) &&& 3) 9, EnqEvent.store (0 + 2)] ∧
    ((0 : Nat) + 1) % 2 = 1 ∧
    ((0 : Nat) + 2) % 2 = 0 ∧
    (∀ o n, EnqEvent.cas o n ∈
      queue.EnqueueTrace (⟨[0, 0, 0, 0], 4, 3, 7, 0, 0⟩ : queue Nat) 9 true → n = o + 1) ∧
    applyTrace (⟨[0, 0, 0, 0], 4, 3, 7, 0, 0⟩ : queue Nat)
      (queue.EnqueueTrace (⟨[0, 0, 0, 0], 4, 3, 7, 0, 0⟩ : queue Nat) 9 true) =
      (queue.Enqueue (⟨[0, 0, 0, 0], 4, 3, 7, 0, 0⟩ : queue Nat) 9 true).1 ∧
    (queue.Enqueue (⟨[0, 0, 0, 0], 4, 3, 7, 0, 0⟩ : queue Nat) 9 true).1.head = 0 + 2 :=
  C1_enqueue_two_step Nat ⟨[0, 0, 0, 0], 4, 3, 7, 0, 0⟩ 9 (by norm_num [U64]) (by decide)
    (by decide)

/-- C10: a successful Dequeue copies the value out but never clears or
modifies the buffer: the resulting state has the same buffer, head,
cap, capMask and capX2, only the tail advanced by two; the returned
value is the content of slot `(tail >> 1) & capMask`, and after the
dequeue that slot still holds the same value (no later Enqueue has yet
overwritten it). -/
theorem C10_dequeue_frame (T : Type) [Inhabited T] (q qd : queue T) (v : T) (casOk : Bool)
    (h : q.DequeueIter casOk = (qd, DeqResult.got v)) :
    qd.buffer = q.buffer ∧ qd.head = q.head ∧ qd.cap = q.cap ∧ qd.capMask = q.capMask ∧
    qd.capX2 = q.capX2 ∧ qd.tail = ((q.tail + 1) % U64 + 1) % U64 ∧
    v = q.buffer.getD ((q.tail >>> 1) &&& q.capMask) default ∧
    qd.buffer.getD ((q.tail >>> 1) &&& q.capMask) default = v := by
  unfold queue.DequeueIter at h
  by_cases h1 : q.tail = q.head
  · rw [if_pos h1] at h
    simp at h
  · rw [if_neg h1] at h
    by_cases h2 : q.tail &&& 1 = 1 ∨ u64sub q.head q.tail < 2
    · rw [if_pos h2] at h
      simp at h
    · rw [if_neg h2] at h
      cases casOk with
      | false => simp at h
      | true =>
        rw [if_pos rfl] at h
        rw [Prod.mk.injEq] at h
        obtain ⟨hqd, hv⟩ := h
        rw [DeqResult.got.injEq] at hv
        subst hqd
        subst hv
        exact ⟨rfl, rfl, rfl, rfl, rfl, rfl, rfl, rfl⟩

/-- C10 witness: the theorem applied to a queue of capacity 2 holding 5
and 6, dequeuing 5. -/
theorem C10_witness :
    (⟨[5, 6], 2, 1, 3, 4, 2⟩ : queue Nat).buffer =
      (⟨[5, 6], 2, 1, 3, 4, 0⟩ : queue Nat).buffer ∧
    (⟨[5, 6], 2, 1, 3, 4, 2⟩ : queue Nat).head = (⟨[5, 6], 2, 1, 3, 4, 0⟩ : queue Nat).head ∧
    (⟨[5, 6], 2, 1, 3, 4, 2⟩ : queue Nat).cap = (⟨[5, 6], 2, 1, 3, 4, 0⟩ : queue Nat).cap ∧
    (⟨[5, 6], 2, 1, 3, 4, 2⟩ : queue Nat).capMask =
      (⟨[5, 6], 2, 1, 3, 4, 0⟩ : queue Nat).capMask ∧
    (⟨[5, 6], 2, 1, 3, 4, 2⟩ : queue Nat).capX2 =
      (⟨[5, 6], 2, 1, 3, 4, 0⟩ : queue Nat).capX2 ∧
    (⟨[5, 6], 2, 1, 3, 4, 2⟩ : queue Nat).tail = ((0 + 1) % U64 + 1) % U64 ∧
    (5 : Nat) = (⟨[5, 6], 2, 1, 3, 4, 0⟩ : queue Nat).buffer.getD ((0 >>> 1) &&& 1) default ∧
    (⟨[5, 6], 2, 1, 3, 4, 2⟩ : queue Nat).buffer.getD ((0 >>> 1) &&& 1) default = 5 :=
  C10_dequeue_frame Nat ⟨[5, 6], 2, 1, 3, 4, 0⟩ ⟨[5, 6], 2, 1, 3, 4, 2⟩ 5 true (by decide)

theorem Enqueue_step_spec (T : Type) [Inhabited T] (q : queue T) (v : T) (k j : Nat)
    (hcapX2 : q.capX2 = 2 ^ k * 2 - 1) (hmask : q.capMask = 2 ^ k - 1)
    (hhead : q.head = 2 * j) (htail : q.tail = 0)
    (hj : j < 2 ^ k) (hwrap : 2 * 2 ^ k < U64) :
    (q.Enqueue v true).2 = true ∧
    (q.Enqueue v true).1.buffer = q.buffer.set j v ∧
    (q.Enqueue v true).1.head = 2 * (j + 1) ∧
    (q.Enqueue v true).1.tail = q.tail ∧
    (q.Enqueue v true).1.cap = q.cap ∧
    (q.Enqueue v true).1.capMask = q.capMask ∧
    (q.Enqueue v true).1.capX2 = q.capX2 := by
  have hfull : ¬ q.capX2 ≤ u64sub q.head q.tail := by
    rw [hcapX2, hhead, htail, u64sub_eq_sub _ _ (Nat.zero_le _) (by omega)]
    omega
  have hidx : (q.head >>> 1) &&& q.capMask = j := by
    rw [hhead, hmask, shiftRight_one_double, mask_pow_two j k hj]
  have hb1 : q.head + 1 < U64 := by omega
  have hb2 : q.head + 1 + 1 < U64 := by omega
  have hm : ((q.head + 1) % U64 + 1) % U64 = 2 * (j + 1) := by
    rw [u64mod_eq _ hb1, u64mod_eq _ hb2]
    omega
  unfold queue.Enqueue
  rw [if_neg hfull, if_pos rfl]
  exact ⟨rfl, by rw [hidx], hm, rfl, rfl, rfl, rfl⟩

theorem DequeueIter_step_spec (T : Type) [Inhabited T] (q : queue T) (i n : Nat)
    (hhead : q.head = 2 * n) (htail : q.tail = 2 * i) (hin : i < n) (hwrap : 2 * n < U64) :
    (q.DequeueIter true).2 = DeqResult.got (q.buffer.getD (i &&& q.capMask) default) ∧
    (q.DequeueIter true).1.buffer = q.buffer ∧
    (q.DequeueIter true).1.head = q.head ∧
    (q.DequeueIter true).1.tail = 2 * (i + 1) ∧
    (q.DequeueIter true).1.cap = q.cap ∧
    (q.DequeueIter true).1.capMask = q.capMask ∧
    (q.DequeueIter true).1.capX2 = q.capX2 := by
  have h1 : ¬ q.tail = q.head := by
    rw [hhead, htail]
    omega
  have h2 : ¬ (q.tail &&& 1 = 1 ∨ u64sub q.head q.tail < 2) := by
    rw [hhead, htail, u64sub_eq_sub _ _ (by omega) (by omega), even_and_one]
    omega
  have hidx : (q.tail >>> 1) &&& q.capMask = i &&& q.capMask := by
    rw [htail, shiftRight_one_double]
  have hb1 : q.tail + 1 < U64 := by omega
  have hb2 : q.tail + 1 + 1 < U64 := by omega
  have hm : ((q.tail + 1) % U64 + 1) % U64 = 2 * (i + 1) := by
    rw [u64mod_eq _ hb1, u64mod_eq _ hb2]
    omega
  unfold queue.DequeueIter
  rw [if_neg h1, if_neg h2, if_pos rfl]
  exact ⟨by rw [hidx], rfl, rfl, hm, rfl, rfl, rfl⟩

theorem EnqueueAll_run (T : Type) [Inhabited T] (k : Nat) (hwrap : 2 * 2 ^ k < U64) :
    ∀ (vs : List T) (q : queue T) (j : Nat),
      q.capX2 = 2 ^ k * 2 - 1 → q.capMask = 2 ^ k - 1 → q.tail = 0 → q.head = 2 * j →
      q.buffer.length = 2 ^ k → j + vs.length ≤ 2 ^ k →
      (queue.EnqueueAll q vs).2 = List.replicate vs.length true ∧
      (queue.EnqueueAll q vs).1.head = 2 * (j + vs.length) ∧
      (queue.EnqueueAll q vs).1.tail = 0 ∧
      (queue.EnqueueAll q vs).1.cap = q.cap ∧
      (queue.EnqueueAll q vs).1.capMask = 2 ^ k - 1 ∧
      (queue.EnqueueAll q vs).1.capX2 = 2 ^ k * 2 - 1 ∧
      (queue.EnqueueAll q vs).1.buffer.length = 2 ^ k ∧
      (∀ i, (queue.EnqueueAll q vs).1.buffer.getD i default =
        if j ≤ i ∧ i < j + vs.length then vs.getD (i - j) default
        else q.buffer.getD i default) := by
  intro vs
  induction vs with
  | nil =>
    intro q j hcapX2 hmask htail hhead hlen hle
    refine ⟨rfl, by simpa using hhead, htail, rfl, hmask, hcapX2, hlen, ?_⟩
    intro i
    have hcond : ¬ (j ≤ i ∧ i < j + ([] : List T).length) := by
      simp only [List.length_nil, Nat.add_zero]
      omega
    rw [if_neg hcond]
    rfl
  | cons v vs ih =>
    intro q j hcapX2 hmask htail hhead hlen hle
    have hj : j < 2 ^ k := by
      simp only [List.length_cons] at hle
      omega
    obtain ⟨hok, hbuf, hhead1, htail1, hcap1, hmask1, hcapX21⟩ :=
      Enqueue_step_spec T q v k j hcapX2 hmask hhead htail hj hwrap
    obtain ⟨ih1, ih2, ih3, ih4, ih5, ih6, ih7, ih8⟩ :=
      ih (q.Enqueue v true).1 (j + 1) (by rw [hcapX21, hcapX2]) (by rw [hmask1, hmask])
        (by rw [htail1, htail]) hhead1 (by rw [hbuf, List.length_set, hlen])
        (by simp only [List.length_cons] at hle; omega)
    simp only [queue.EnqueueAll]
    refine ⟨?_, ?_, ih3, ?_, ih5, ih6, ih7, ?_⟩
    · rw [hok, ih1, List.length_cons, List.replicate_succ]
    · rw [ih2, List.length_cons]
      omega
    · rw [ih4, hcap1]
    · intro i
      rw [ih8 i, hbuf]
      by_cases hij : i < j
      · rw [if_neg (by omega), if_neg (by omega), getD_set_ne _ _ _ _ _ (by omega)]
      · by_cases heq : i = j
        · subst heq
          rw [if_neg (by omega), if_pos (by simp only [List.length_cons]; omega),
            getD_set_eq _ _ _ _ (by omega)]
          simp
        · by_cases hlt : i < j + 1 + vs.length
          · rw [if_pos (by omega), if_pos (by simp only [List.length_cons]; omega)]
            have hsub : i - j = (i - (j + 1)) + 1 := by omega
            rw [hsub]
            simp [List.getD_cons_succ]
          · rw [if_neg (by omega), if_neg (by simp only [List.length_cons]; omega),
              getD_set_ne _ _ _ _ _ (by omega)]

theorem DrainN_run (T : Type) [Inhabited T] (n : Nat) (hwrap : 2 * n < U64) :
    ∀ (m : Nat) (q : queue T) (i : Nat),
      q.head = 2 * n → q.tail = 2 * i → i + m ≤ n →
      (queue.DrainN q m).2 =
        (List.range m).map
          (fun t => DeqResult.got (q.buffer.getD ((i + t) &&& q.capMask) default)) ∧
      (queue.DrainN q m).1.buffer = q.buffer ∧
      (queue.DrainN q m).1.head = q.head ∧
      (queue.DrainN q m).1.tail = 2 * (i + m) ∧
      (queue.DrainN q m).1.capMask = q.capMask ∧
      (queue.DrainN q m).1.capX2 = q.capX2 ∧
      (queue.DrainN q m).1.cap = q.cap := by
  intro m
  induction m with
  | zero =>
    intro q i hhead htail hle
    exact ⟨rfl, rfl, rfl, by simpa using htail, rfl, rfl, rfl⟩
  | succ m ih =>
    intro q i hhead htail hle
    have hin : i < n := by omega
    obtain ⟨hs1, hs2, hs3, hs4, hs5, hs6, hs7⟩ :=
      DequeueIter_step_spec T q i n hhead htail hin hwrap
    obtain ⟨ih1, ih2, ih3, ih4, ih5, ih6, ih7⟩ :=
      ih (q.DequeueIter true).1 (i + 1) (by rw [hs3, hhead]) hs4 (by omega)
    simp only [queue.DrainN]
    refine ⟨?_, by rw [ih2, hs2], by rw [ih3, hs3], by rw [ih4]; omega,
      by rw [ih5, hs6], by rw [ih6, hs7], by rw [ih7, hs5]⟩
    rw [hs1, ih1, List.range_succ_eq_map, List.map_cons, List.map_map]
    simp only [hs2, hs6, Nat.add_zero]
    congr 1
    congr 1
    funext t
    simp only [Function.comp_apply, Nat.succ_eq_add_one]
    have h5 : i + 1 + t = i + (t + 1) := by omega
    rw [h5]

theorem DrainN_add (T : Type) [Inhabited T] :
    ∀ (a : Nat) (q : queue T) (b : Nat),
      (queue.DrainN q (a + b)).2 =
        (queue.DrainN q a).2 ++ (queue.DrainN (queue.DrainN q a).1 b).2 ∧
      (queue.DrainN q (a + b)).1 = (queue.DrainN (queue.DrainN q a).1 b).1 := by
  intro a
  induction a with
  | zero =>
    intro q b
    rw [Nat.zero_add]
    exact ⟨by simp [queue.DrainN], by simp [queue.DrainN]⟩
  | succ a ih =>
    intro q b
    rw [Nat.succ_add]
    simp only [queue.DrainN]
    obtain ⟨ihl, ihr⟩ := ih (q.DequeueIter true).1 b
    refine ⟨?_, ihr⟩
    rw [List.cons_append, ihl]

/-- C8: starting from the empty queue built by the constructor at
capacity c, c consecutive non-blocking Enqueues all succeed; the
(c+1)-th attempt finds `head - tail >= 2*c - 1` (the code's fullness
check) and returns false; and after one successful Dequeue a further
Enqueue succeeds again. -/
theorem C8_fullness (T : Type) [Inhabited T] (c : Nat) (v w : T) (q0 : queue T)
    (hq : Queue T c = Except.ok q0) (hwrap : 2 * c < U64) :
    (queue.EnqueueAll q0 (List.replicate c v)).2 = List.replicate c true ∧
    2 * c - 1 ≤ u64sub (queue.EnqueueAll q0 (List.replicate c v)).1.head
      (queue.EnqueueAll q0 (List.replicate c v)).1.tail ∧
    ((queue.EnqueueAll q0 (List.replicate c v)).1.Enqueue v true).2 = false ∧
    (∃ x, ((queue.EnqueueAll q0 (List.replicate c v)).1.DequeueIter true).2 =
      DeqResult.got x) ∧
    ((((queue.EnqueueAll q0 (List.replicate c v)).1.DequeueIter true).1).Enqueue w true).2 =
      true := by
  have hcond : ¬ (c = 0 ∨ c &&& (c - 1) ≠ 0) := by
    intro h
    unfold Queue at hq
    rw [if_pos h] at hq
    simp at hq
  have hc0 : c ≠ 0 := fun h => hcond (Or.inl h)
  obtain ⟨k, hk⟩ := pow2_of_land_pred c (Nat.pos_of_ne_zero hc0)
    (by by_contra h; exact hcond (Or.inr h))
  subst hk
  unfold Queue at hq
  rw [if_neg hcond] at hq
  injection hq with hq0
  subst hq0
  have h2k : 1 ≤ 2 ^ k := Nat.one_le_two_pow
  obtain ⟨e1, e2, e3, e4, e5, e6, e7, e8⟩ :=
    EnqueueAll_run T k hwrap (List.replicate (2 ^ k) v)
      ⟨List.replicate (2 ^ k) default, 2 ^ k, 2 ^ k - 1, 2 ^ k * 2 - 1, 0, 0⟩ 0
      rfl rfl rfl rfl (by simp) (by simp)
  rw [List.length_replicate] at e1 e2
  have hFhead :
      (queue.EnqueueAll (⟨List.replicate (2 ^ k) default, 2 ^ k, 2 ^ k - 1, 2 ^ k * 2 - 1, 0, 0⟩ :
        queue T) (List.replicate (2 ^ k) v)).1.head = 2 * 2 ^ k := by
    rw [e2]
    omega
  have hsub : u64sub (2 * 2 ^ k) 0 = 2 * 2 ^ k :=
    u64sub_eq_sub _ _ (Nat.zero_le _) (by omega)
  have hfull :
      (queue.EnqueueAll (⟨List.replicate (2 ^ k) default, 2 ^ k, 2 ^ k - 1, 2 ^ k * 2 - 1, 0, 0⟩ :
        queue T) (List.replicate (2 ^ k) v)).1.capX2 ≤
      u64sub (queue.EnqueueAll (⟨List.replicate (2 ^ k) default, 2 ^ k, 2 ^ k - 1, 2 ^ k * 2 - 1, 0,
        0⟩ : queue T) (List.replicate (2 ^ k) v)).1.head
        (queue.EnqueueAll (⟨List.replicate (2 ^ k) default, 2 ^ k, 2 ^ k - 1, 2 ^ k * 2 - 1, 0, 0⟩ :
          queue T) (List.replicate (2 ^ k) v)).1.tail := by
    rw [e6, hFhead, e3, hsub]
    omega
  obtain ⟨d1, d2, d3, d4, d5, d6, d7⟩ :=
    DequeueIter_step_spec T
      (queue.EnqueueAll (⟨List.replicate (2 ^ k) default, 2 ^ k, 2 ^ k - 1, 2 ^ k * 2 - 1, 0, 0⟩ :
        queue T) (List.replicate (2 ^ k) v)).1 0 (2 ^ k) hFhead (by rw [e3]) (by omega) hwrap
  refine ⟨e1, ?_, ?_, ⟨_, d1⟩, ?_⟩
  · rw [hFhead, e3, hsub]
    omega
  · unfold queue.Enqueue
    rw [if_pos hfull]
  · have hqd : ¬ ((queue.EnqueueAll (⟨List.replicate (2 ^ k) default, 2 ^ k, 2 ^ k - 1,
        2 ^ k * 2 - 1, 0, 0⟩ : queue T) (List.replicate (2 ^ k) v)).1.DequeueIter true).1.capX2 ≤
        u64sub ((queue.EnqueueAll (⟨List.replicate (2 ^ k) default, 2 ^ k, 2 ^ k - 1,
          2 ^ k * 2 - 1, 0, 0⟩ : queue T) (List.replicate (2 ^ k) v)).1.DequeueIter true).1.head
        ((queue.EnqueueAll (⟨List.replicate (2 ^ k) default, 2 ^ k, 2 ^ k - 1, 2 ^ k * 2 - 1, 0,
          0⟩ : queue T) (List.replicate (2 ^ k) v)).1.DequeueIter true).1.tail := by
      rw [d7, e6, d3, hFhead, d4]
      rw [u64sub_eq_sub _ _ (by omega) (by omega)]
      omega
    unfold queue.Enqueue
    rw [if_neg hqd, if_pos rfl]

/-- C8 witness: the theorem applied at capacity 4, filling with 1 and
re-enqueueing 2 after the dequeue. -/
theorem C8_witness :
    (queue.EnqueueAll (⟨[0, 0, 0, 0], 4, 3, 7, 0, 0⟩ : queue Nat) (List.replicate 4 1)).2 =
      List.replicate 4 true ∧
    2 * 4 - 1 ≤
      u64sub (queue.EnqueueAll (⟨[0, 0, 0, 0], 4, 3, 7, 0, 0⟩ : queue Nat)
          (List.replicate 4 1)).1.head
        (queue.EnqueueAll (⟨[0, 0, 0, 0], 4, 3, 7, 0, 0⟩ : queue Nat)
          (List.replicate 4 1)).1.tail ∧
    ((queue.EnqueueAll (⟨[0, 0, 0, 0], 4, 3, 7, 0, 0⟩ : queue Nat)
      (List.replicate 4 1)).1.Enqueue 1 true).2 = false ∧
    (∃ x, ((queue.EnqueueAll (⟨[0, 0, 0, 0], 4, 3, 7, 0, 0⟩ : queue Nat)
      (List.replicate 4 1)).1.DequeueIter true).2 = DeqResult.got x) ∧
    ((((queue.EnqueueAll (⟨[0, 0, 0, 0], 4, 3, 7, 0, 0⟩ : queue Nat)
      (List.replicate 4 1)).1.DequeueIter true).1).Enqueue 2 true).2 = true :=
  C8_fullness Nat 4 1 2 ⟨[0, 0, 0, 0], 4, 3, 7, 0, 0⟩ rfl (by norm_num [U64])

/-- C9: with one producer and one consumer operating sequentially on a
constructor-built queue of capacity at least `vs.length`, the values of
`vs` enqueued in order are dequeued in exactly that order (each a
successful `got`), and the next Dequeue on the then-empty queue returns
the zero value with ok = false (`empty`). -/
theorem C9_fifo (T : Type) [Inhabited T] (c : Nat) (vs : List T) (q0 : queue T)
    (hq : Queue T c = Except.ok q0) (hn : vs.length ≤ c) (hwrap : 2 * c < U64) :
    (queue.EnqueueAll q0 vs).2 = List.replicate vs.length true ∧
    (queue.DrainN (queue.EnqueueAll q0 vs).1 (vs.length + 1)).2 =
      vs.map DeqResult.got ++ [DeqResult.empty] := by
  have hcond : ¬ (c = 0 ∨ c &&& (c - 1) ≠ 0) := by
    intro h
    unfold Queue at hq
    rw [if_pos h] at hq
    simp at hq
  have hc0 : c ≠ 0 := fun h => hcond (Or.inl h)
  obtain ⟨k, hk⟩ := pow2_of_land_pred c (Nat.pos_of_ne_zero hc0)
    (by by_contra h; exact hcond (Or.inr h))
  subst hk
  unfold Queue at hq
  rw [if_neg hcond] at hq
  injection hq with hq0
  subst hq0
  obtain ⟨e1, e2, e3, e4, e5, e6, e7, e8⟩ :=
    EnqueueAll_run T k hwrap vs
      ⟨List.replicate (2 ^ k) default, 2 ^ k, 2 ^ k - 1, 2 ^ k * 2 - 1, 0, 0⟩ 0
      rfl rfl rfl rfl (by simp) (by omega)
  refine ⟨e1, ?_⟩
  have hFhead :
      (queue.EnqueueAll (⟨List.replicate (2 ^ k) default, 2 ^ k, 2 ^ k - 1, 2 ^ k * 2 - 1, 0, 0⟩ :
        queue T) vs).1.head = 2 * vs.length := by
    rw [e2]
    omega
  obtain ⟨r1, r2, r3, r4, r5, r6, r7⟩ :=
    DrainN_run T vs.length (by omega) vs.length
      (queue.EnqueueAll (⟨List.replicate (2 ^ k) default, 2 ^ k, 2 ^ k - 1, 2 ^ k * 2 - 1, 0, 0⟩ :
        queue T) vs).1 0 hFhead (by rw [e3]) (by omega)
  have hmap : (queue.DrainN (queue.EnqueueAll (⟨List.replicate (2 ^ k) default, 2 ^ k,
      2 ^ k - 1, 2 ^ k * 2 - 1, 0, 0⟩ : queue T) vs).1 vs.length).2 =
      vs.map DeqResult.got := by
    rw [r1]
    have hptw : ∀ t ∈ List.range vs.length,
        DeqResult.got ((queue.EnqueueAll (⟨List.replicate (2 ^ k) default, 2 ^ k, 2 ^ k - 1,
          2 ^ k * 2 - 1, 0, 0⟩ : queue T) vs).1.buffer.getD
          ((0 + t) &&& (queue.EnqueueAll (⟨List.replicate (2 ^ k) default, 2 ^ k, 2 ^ k - 1,
            2 ^ k * 2 - 1, 0, 0⟩ : queue T) vs).1.capMask) default) =
        DeqResult.got (vs.getD t default) := by
      intro t ht
      have htl : t < vs.length := List.mem_range.mp ht
      have h0t : (0 + t) &&& (queue.EnqueueAll (⟨List.replicate (2 ^ k) default, 2 ^ k,
          2 ^ k - 1, 2 ^ k * 2 - 1, 0, 0⟩ : queue T) vs).1.capMask = t := by
        rw [e5, Nat.zero_add, mask_pow_two t k (by omega)]
      rw [h0t, e8 t, if_pos (by omega)]
      simp
    rw [List.map_congr_left hptw]
    rw [show (fun t => DeqResult.got (vs.getD t default)) =
      DeqResult.got ∘ (fun t => vs.getD t default) from rfl]
    rw [← List.map_map, map_getD_range vs default]
  obtain ⟨ha1, ha2⟩ :=
    DrainN_add T vs.length
      (queue.EnqueueAll (⟨List.replicate (2 ^ k) default, 2 ^ k, 2 ^ k - 1, 2 ^ k * 2 - 1, 0, 0⟩ :
        queue T) vs).1 1
  rw [ha1, hmap]
  have hempty : (queue.DrainN (queue.EnqueueAll (⟨List.replicate (2 ^ k) default, 2 ^ k,
      2 ^ k - 1, 2 ^ k * 2 - 1, 0, 0⟩ : queue T) vs).1 vs.length).1.tail =
      (queue.DrainN (queue.EnqueueAll (⟨List.replicate (2 ^ k) default, 2 ^ k, 2 ^ k - 1,
        2 ^ k * 2 - 1, 0, 0⟩ : queue T) vs).1 vs.length).1.head := by
    rw [r4, r3, hFhead]
    omega
  have hiter : ((queue.DrainN (queue.EnqueueAll (⟨List.replicate (2 ^ k) default, 2 ^ k,
      2 ^ k - 1, 2 ^ k * 2 - 1, 0, 0⟩ : queue T) vs).1 vs.length).1.DequeueIter true).2 =
      DeqResult.empty := by
    unfold queue.DequeueIter
    rw [if_pos hempty]
  simp only [queue.DrainN, hiter]

/-- C9 witness: the theorem applied at capacity 4 with the values
5, 6, 7. -/
theorem C9_witness :
    (queue.EnqueueAll (⟨[0, 0, 0, 0], 4, 3, 7, 0, 0⟩ : queue Nat) [5, 6, 7]).2 =
      List.replicate ([5, 6, 7] : List Nat).length true ∧
    (queue.DrainN (queue.EnqueueAll (⟨[0, 0, 0, 0], 4, 3, 7, 0, 0⟩ : queue Nat) [5, 6, 7]).1
      (([5, 6, 7] : List Nat).length + 1)).2 =
      ([5, 6, 7] : List Nat).map DeqResult.got ++ [DeqResult.empty] :=
  C9_fifo Nat 4 [5, 6, 7] ⟨[0, 0, 0, 0], 4, 3, 7, 0, 0⟩ rfl (by decide) (by norm_num [U64])
